import Mathlib

/-!
A verification development for the harness decision engine: the guardrail
command-policy matcher, the score-card finalizer, the recommendation ranker,
the analysis finding generator, and the optimization delta classifier.

Each definition is a shallow embedding of the corresponding Rust item:
strings are lists of characters, machine floats are rationals, `HashMap` and
`HashSet` become association lists and membership tests, `BTreeSet` becomes
`Finset`, and the stable `sort_by` becomes a stable insertion sort.
-/

namespace Harness

/-! ## Command policy matcher (src/guardrails/command_policy.rs) -/

/-- The space character, written by code point to keep literals uniform. -/
def spaceChar : Char := Char.ofNat 32

/-- Whitespace test used by tokenization; models the whitespace classes that
occur in shell command strings (space, tab, line feed, carriage return). -/
def isWS (c : Char) : Bool :=
  c == Char.ofNat 32 || c == Char.ofNat 9 || c == Char.ofNat 10 || c == Char.ofNat 13

/-- Split a character list at whitespace characters: returns the first raw
piece and the list of later raw pieces (empty pieces included). -/
def splitAux : List Char → List Char × List (List Char)
  | [] => ([], [])
  | c :: cs =>
    let r := splitAux cs
    if isWS c then ([], r.1 :: r.2) else (c :: r.1, r.2)

/-- Whitespace tokenization: all maximal nonempty runs of non-whitespace
characters, in order.  Models `str::split_whitespace`. -/
def splitWS (s : List Char) : List (List Char) :=
  ((splitAux s).1 :: (splitAux s).2).filter (fun t => !t.isEmpty)

/-- Join token lists with single spaces; models `Vec::join(" ")`. -/
def joinSp : List (List Char) → List Char
  | [] => []
  | [t] => t
  | t :: t2 :: ts => t ++ spaceChar :: joinSp (t2 :: ts)

/-- `normalize` from command_policy.rs: collapse whitespace by splitting into
tokens and re-joining with single spaces. -/
def normalize (s : List Char) : List Char := joinSp (splitWS s)

/-- `CommandPolicy` from command_policy.rs: forbidden rules and an alias map
(the `HashMap` modelled as an association list with distinct keys). -/
structure CommandPolicy where
  forbidden : List (List Char)
  aliases : List (List Char × List Char)

/-- The default policy of `CommandPolicy::default`. -/
def CommandPolicy.default : CommandPolicy :=
  { forbidden := ["git push --force".data, "git reset --hard".data,
                  "rm -rf".data, "sudo rm -rf".data],
    aliases := [] }

/-- One pass of the alias loop body plus the remaining fuel; models the
`for _ in 0..8` loop of `expand_aliases` with its seen-head cycle guard. -/
def expandAliasesAux (aliases : List (List Char × List Char)) :
    Nat → List (List Char) → List Char → List Char
  | 0, _, current => current
  | fuel + 1, seen, current =>
    match splitWS current with
    | [] => current
    | head :: tailToks =>
      let tail := joinSp tailToks
      if seen.contains head then current
      else
        match List.lookup head aliases with
        | none => current
        | some target =>
          expandAliasesAux aliases fuel (head :: seen)
            (if tail.isEmpty then normalize target
             else normalize (target ++ spaceChar :: tail))

/-- `expand_aliases` from command_policy.rs. -/
def expand_aliases (command : List Char) (aliases : List (List Char × List Char)) :
    List Char :=
  expandAliasesAux aliases 8 [] command

/-- `starts_with_tokens` from command_policy.rs: `right` is no longer than
`left` and the two agree position by position on the zipped part. -/
def starts_with_tokens (left right : List (List Char)) : Bool :=
  decide (right.length ≤ left.length) &&
    (left.zip right).all (fun p => p.1 == p.2)

/-- `command_matches` from command_policy.rs: tokenize both sides; an empty
side never matches; otherwise the test is bidirectional. -/
def command_matches (command rule : List Char) : Bool :=
  let command_tokens := splitWS command
  let rule_tokens := splitWS rule
  if command_tokens.isEmpty || rule_tokens.isEmpty then false
  else starts_with_tokens command_tokens rule_tokens
    || starts_with_tokens rule_tokens command_tokens

/-- `is_forbidden_with_policy` from command_policy.rs. -/
def is_forbidden_with_policy (cmd : List Char) (policy : CommandPolicy) : Bool :=
  let expanded := expand_aliases (normalize cmd) policy.aliases
  if expanded.isEmpty then false
  else (policy.forbidden.map normalize).any (fun rule => command_matches expanded rule)

/-- `is_forbidden` from command_policy.rs: the default-policy entry point. -/
def is_forbidden (cmd : List Char) : Bool :=
  is_forbidden_with_policy cmd CommandPolicy.default

/-! ## Score cards (src/types/scoring.rs); floats become rationals -/

/-- `f32::clamp(0.0, 1.0)`. -/
def clamp01 (x : ℚ) : ℚ := max 0 (min 1 x)

/-- `ScoreCard` from scoring.rs. -/
structure ScoreCard where
  context : ℚ
  tools : ℚ
  continuity : ℚ
  verification : ℚ
  repository_quality : ℚ
  overall : ℚ

/-- The `[Score; 5]` weight array, with one named slot per category. -/
structure Weights where
  context : ℚ
  tools : ℚ
  continuity : ℚ
  verification : ℚ
  repository_quality : ℚ

/-- `ScoreCard::new`: the five categories with `overall` initialized to 0. -/
def ScoreCard.new (context tools continuity verification repository_quality : ℚ) :
    ScoreCard :=
  { context, tools, continuity, verification, repository_quality, overall := 0 }

/-- `ScoreCard::clamped`: every field clamped to [0, 1]. -/
def ScoreCard.clamped (c : ScoreCard) : ScoreCard :=
  { context := clamp01 c.context, tools := clamp01 c.tools,
    continuity := clamp01 c.continuity, verification := clamp01 c.verification,
    repository_quality := clamp01 c.repository_quality,
    overall := clamp01 c.overall }

/-- `ScoreCard::weighted_overall`: clamp, then sum category times weight over
the five category slots (the zipped-array sum written out). -/
def ScoreCard.weighted_overall (c : ScoreCard) (w : Weights) : ℚ :=
  let d := c.clamped
  d.context * w.context + d.tools * w.tools + d.continuity * w.continuity +
    d.verification * w.verification + d.repository_quality * w.repository_quality

/-- `ScoreCard::finalize`: clamp all fields, then overwrite `overall` with the
weighted sum. -/
def ScoreCard.finalize (c : ScoreCard) (w : Weights) : ScoreCard :=
  let d := c.clamped
  { d with overall := d.weighted_overall w }

/-! ## Report types and recommendation ranking (src/types/report.rs) -/

inductive Impact where
  | Low
  | Medium
  | High
deriving DecidableEq

/-- `Impact::priority`. -/
def Impact.priority : Impact → Nat
  | .High => 3
  | .Medium => 2
  | .Low => 1

inductive Effort where
  | Xs
  | S
  | M
  | L
deriving DecidableEq

/-- `Effort::rank`. -/
def Effort.rank : Effort → Nat
  | .Xs => 1
  | .S => 2
  | .M => 3
  | .L => 4

inductive Risk where
  | Safe
  | Medium
  | High
deriving DecidableEq

/-- `Finding` from report.rs. -/
structure Finding where
  id : String
  title : String
  body : String
  blocking : Bool
  file : Option String
deriving DecidableEq

/-- `Recommendation` from report.rs (the fields the ranking reads plus the
clamped confidence). -/
structure Recommendation where
  id : String
  title : String
  summary : String
  impact : Impact
  effort : Effort
  risk : Risk
  confidence : ℚ
deriving DecidableEq

/-- `Recommendation::new`, which clamps confidence at construction. -/
def Recommendation.new (id title summary : String) (impact : Impact)
    (effort : Effort) (risk : Risk) (confidence : ℚ) : Recommendation :=
  { id, title, summary, impact, effort, risk, confidence := clamp01 confidence }

/-- Integer comparison, modelling `u8::cmp`. -/
def natCompare (a b : Nat) : Ordering :=
  if a < b then .lt else if b < a then .gt else .eq

/-- `alphabetical_cmp` from report.rs: `str::cmp`, lexicographic. -/
def strCompare (a b : String) : Ordering :=
  if a < b then .lt else if b < a then .gt else .eq

/-- The comparator of `HarnessReport::sort_recommendations`: impact priority
descending, then effort rank ascending, then id ascending. -/
def cmpRec (a b : Recommendation) : Ordering :=
  (natCompare b.impact.priority a.impact.priority).then
    ((natCompare a.effort.rank b.effort.rank).then (strCompare a.id b.id))

/-- Stable insertion of one element into a list: the element goes in front of
the first entry it is `le` to, hence behind existing equal entries. -/
def insertLe (le : α → α → Bool) (x : α) : List α → List α
  | [] => [x]
  | y :: ys => if le x y then x :: y :: ys else y :: insertLe le x ys

/-- Stable insertion sort; models the stable `slice::sort_by` for a total
preorder given as a boolean `le`. -/
def sortLe (le : α → α → Bool) (l : List α) : List α :=
  l.foldr (insertLe le) []

/-- `HarnessReport::sort_recommendations` as a function on the list: stable
sort by the three-key comparator. -/
def sort_recommendations (l : List Recommendation) : List Recommendation :=
  sortLe (fun a b => !(cmpRec a b == Ordering.gt)) l

/-! ## Signal model and configuration (src/scan, src/types/config.rs),
restricted to the fields the finding generator reads -/

/-- `DocSignals` from scan/docs.rs. -/
structure DocSignals where
  has_agents_md : Bool
  agents_has_section_header : Bool
  has_context_index : Bool
  has_architecture_doc : Bool
  readme_links_architecture : Bool
  docs_age_days : Option Int

/-- `ToolSignals` from scan/tools.rs. -/
structure ToolSignals where
  tool_names : List String
  risky_overlap_clusters : Nat
  unrestricted_destructive : Nat
  has_ambiguous_duplicates : Bool

/-- `RepoModel` from scan/mod.rs (without the filesystem root path). -/
structure RepoModel where
  file_count : Nat
  docs : DocSignals
  tools : ToolSignals

/-- `ToolDeprecated` from types/config.rs. -/
structure ToolDeprecated where
  observe : List String
  deprecated : List String
  disabled : List String

/-- `ToolsConfig` from types/config.rs (the field the generator reads). -/
structure ToolsConfig where
  deprecated : Option ToolDeprecated

/-- `VerificationConfig` from types/config.rs. -/
structure VerificationConfig where
  required : List String
  pre_completion_required : Bool
  loop_guard_enabled : Bool

/-- `HarnessConfig` from types/config.rs (the fields the generator and the
verification scorer read). -/
structure HarnessConfig where
  tools : Option ToolsConfig
  verification : Option VerificationConfig

/-- `verification_score` from analyze/verification.rs. -/
def verification_score (config : Option HarnessConfig) : ℚ :=
  let score : ℚ :=
    match config.bind (fun cfg => cfg.verification) with
    | none => 0
    | some verification =>
      (if !verification.required.isEmpty then (1 : ℚ) / 2 else 0) +
        (if verification.pre_completion_required then (3 : ℚ) / 10 else 0) +
        (if verification.loop_guard_enabled then (1 : ℚ) / 5 else 0)
  clamp01 score

/-- Join strings with a comma and a space; models `Vec::join(", ")`. -/
def joinComma (l : List String) : String := String.intercalate ", " l

/-- The findings list built by `analyze` in analyze/mod.rs lines 27 to 114:
each conditional push becomes one conditional singleton, concatenated in
push order.  The verification branch keeps the source `if / else if` shape. -/
def analyze_findings (model : RepoModel) (config : Option HarnessConfig) :
    List Finding :=
  let verification := verification_score config
  (if !model.docs.has_agents_md then
    [{ id := "context.missing_agents", title := "Missing AGENTS.md",
       body := "Repository is missing AGENTS.md; agent legibility is reduced.",
       blocking := false, file := some "AGENTS.md" }]
   else []) ++
  (if !model.docs.has_context_index then
    [{ id := "context.missing_index", title := "Missing docs context index",
       body := "docs/context/INDEX.md is missing, reducing navigability for agents.",
       blocking := false, file := some "docs/context/INDEX.md" }]
   else []) ++
  (if 0 < model.tools.unrestricted_destructive then
    [{ id := "tools.destructive_exposed",
       title := "Potentially destructive tools exposed",
       body := "Detected unrestricted destructive commands in tool inventory.",
       blocking := true, file := some "harness.toml" }]
   else []) ++
  (match config.bind (fun cfg => cfg.tools) |>.bind (fun tools => tools.deprecated) with
   | none => []
   | some deprecated =>
     (if !deprecated.observe.isEmpty then
       [{ id := "tools.observe", title := "Observed tools scheduled for deprecation",
          body := "Observed tools are still allowed but tracked: " ++
            joinComma deprecated.observe ++ ".",
          blocking := false, file := some "harness.toml" }]
      else []) ++
     (if !deprecated.deprecated.isEmpty then
       [{ id := "tools.deprecated", title := "Deprecated tools still enabled",
          body := "Deprecated tools should be migrated off active workflows: " ++
            joinComma deprecated.deprecated ++ ".",
          blocking := true, file := some "harness.toml" }]
      else []) ++
     (if !deprecated.disabled.isEmpty then
       [{ id := "tools.disabled", title := "Disabled tools are configured",
          body := "Disabled tools are forbidden on apply and must not be used: " ++
            joinComma deprecated.disabled ++ ".",
          blocking := true, file := some "harness.toml" }]
      else [])) ++
  (if config.isSome ∧ verification < 1 / 2 then
    [{ id := "verification.incomplete", title := "Verification policy incomplete",
       body := "Verification requirements are incomplete or missing pre-completion checks.",
       blocking := true, file := some "harness.toml" }]
   else if config.isNone then
    [{ id := "verification.missing_config", title := "Verification policy unavailable",
       body := "Verification checks cannot be evaluated because harness.toml is missing.",
       blocking := false, file := some "harness.toml" }]
   else [])

/-! ## Optimization delta classifier (src/main.rs); `f32`/`f64` become `ℚ`,
`chrono` timestamps become `ℤ`, `BTreeSet` becomes `Finset` -/

/-- `OptimizationThresholds` from types/config.rs. -/
structure OptimizationThresholds where
  min_traces : Nat
  min_uplift_abs : ℚ
  min_uplift_rel : ℚ
  trace_staleness_days : Nat
  task_overlap_threshold : ℚ

/-- `OptimizationThresholds::default`. -/
def OptimizationThresholds.default : OptimizationThresholds :=
  { min_traces := 30, min_uplift_abs := 1 / 20, min_uplift_rel := 1 / 10,
    trace_staleness_days := 90, task_overlap_threshold := 1 / 2 }

/-- `RecentTraceRecord` from main.rs: one parsed, recent, complete trace. -/
structure RecentTraceRecord where
  timestamp : Int
  task_id : String
  revision : String
  outcome : String
  steps : Option Nat
  token_est : Option Nat

/-- `OptimizeDeltaStatus` from main.rs. -/
inductive OptimizeDeltaStatus where
  | Improvement
  | Regression
  | Neutral
  | InsufficientData
deriving DecidableEq

/-- `OptimizeDelta` from main.rs. -/
structure OptimizeDelta where
  status : OptimizeDeltaStatus
  baseline_revision : Option String
  current_revision : Option String
  completion_delta : ℚ
  token_delta_rel : ℚ
  step_delta_rel : ℚ
  task_overlap : ℚ
  reason : Option String
deriving DecidableEq

/-- `RevisionAccumulator` from main.rs. -/
structure RevisionAccumulator where
  total : Nat
  success : Nat
  steps_sum : ℚ
  steps_count : Nat
  tokens_sum : ℚ
  tokens_count : Nat
  tasks : Finset String
  latest_ts : Option Int

/-- `RevisionAccumulator::default`: all counters zero, no tasks, no timestamp. -/
def RevisionAccumulator.init : RevisionAccumulator :=
  { total := 0, success := 0, steps_sum := 0, steps_count := 0,
    tokens_sum := 0, tokens_count := 0, tasks := ∅, latest_ts := none }

/-- `RevisionAccumulator::add`: fold one trace into the accumulator. -/
def RevisionAccumulator.add (acc : RevisionAccumulator) (trace : RecentTraceRecord) :
    RevisionAccumulator :=
  { total := acc.total + 1,
    success := if trace.outcome = "success" then acc.success + 1 else acc.success,
    steps_sum := match trace.steps with
      | some steps => acc.steps_sum + steps
      | none => acc.steps_sum,
    steps_count := match trace.steps with
      | some _ => acc.steps_count + 1
      | none => acc.steps_count,
    tokens_sum := match trace.token_est with
      | some token_est => acc.tokens_sum + token_est
      | none => acc.tokens_sum,
    tokens_count := match trace.token_est with
      | some _ => acc.tokens_count + 1
      | none => acc.tokens_count,
    tasks := insert trace.task_id acc.tasks,
    latest_ts := some (match acc.latest_ts with
      | none => trace.timestamp
      | some current =>
        if current < trace.timestamp then trace.timestamp else current) }

/-- `RevisionMetrics` from main.rs. -/
structure RevisionMetrics where
  revision : String
  total : Nat
  completion_rate : ℚ
  avg_steps : ℚ
  avg_tokens : ℚ
  tasks : Finset String
  latest_ts : Int
deriving DecidableEq

/-- `RevisionAccumulator::into_metrics`: `none` exactly when no trace was
folded in (no timestamp); otherwise the three guarded means. -/
def RevisionAccumulator.into_metrics (acc : RevisionAccumulator)
    (revision : String) : Option RevisionMetrics :=
  match acc.latest_ts with
  | none => none
  | some latest_ts =>
    some { revision,
           total := acc.total,
           completion_rate :=
             if acc.total = 0 then 0 else (acc.success : ℚ) / acc.total,
           avg_steps :=
             if acc.steps_count = 0 then 0 else acc.steps_sum / acc.steps_count,
           avg_tokens :=
             if acc.tokens_count = 0 then 0 else acc.tokens_sum / acc.tokens_count,
           tasks := acc.tasks,
           latest_ts }

/-- `compute_task_overlap` from main.rs: Jaccard similarity with an explicit
0 on two empty sets and a division guard on the union size. -/
def compute_task_overlap (a b : Finset String) : ℚ :=
  if a = ∅ ∧ b = ∅ then 0
  else
    let intersection : ℚ := (a ∩ b).card
    let union : ℚ := (a ∪ b).card
    if union = 0 then 0 else intersection / union

/-- `f32::EPSILON`, the divide-by-zero guard bound of `relative_delta`. -/
def f32Epsilon : ℚ := 1 / 2 ^ 23

/-- `relative_delta` from main.rs. -/
def relative_delta (baseline current : ℚ) : ℚ :=
  if |baseline| < f32Epsilon then 0 else (current - baseline) / baseline

/-- The reason text of the revision-count gate. -/
def revisionCountReason : String := "need traces from at least two revisions"

/-- The reason text of the per-revision trace-count gate, with the threshold
and both totals interpolated as in the `format!` call. -/
def minTracesReason (min_traces baseline_total current_total : Nat) : String :=
  "need at least " ++ toString min_traces ++
    " traces per revision (baseline=" ++ toString baseline_total ++
    ", current=" ++ toString current_total ++ ")"

/-- Two-decimal rendering of a rational, modelling the `{:.2}` float format
(round to nearest hundredth, half away from zero). -/
def fmt2 (q : ℚ) : String :=
  let n : Int := if q < 0 then -Rat.floor (-q * 100 + 1 / 2) else Rat.floor (q * 100 + 1 / 2)
  let sign := if n < 0 then "-" else ""
  let m := n.natAbs
  sign ++ toString (m / 100) ++ "." ++
    (if m % 100 < 10 then "0" else "") ++ toString (m % 100)

/-- The reason text of the task-overlap gate. -/
def overlapReason (overlap threshold : ℚ) : String :=
  "task overlap " ++ fmt2 overlap ++ " is below threshold " ++ fmt2 threshold

/-- The reason text of the neutral classification. -/
def neutralReason : String := "changes are below configured uplift thresholds"

/-- Lexicographic strict order on character lists by code point; models the
byte-wise `Ord` on Rust strings (UTF-8 preserves code-point order). -/
def charListLt : List Char → List Char → Bool
  | _, [] => false
  | [], _ :: _ => true
  | a :: as, b :: bs =>
    Nat.blt a.toNat b.toNat || (a.toNat == b.toNat && charListLt as bs)

/-- Boolean order on revision names; models `BTreeMap` key order. -/
def strLe (a b : String) : Bool := charListLt a.data b.data || a == b

/-- Boolean order on the latest-timestamp key; models the `sort_by` comparator
`a.latest_ts.cmp(&b.latest_ts)`. -/
def tsLe (a b : RevisionMetrics) : Bool := decide (a.latest_ts ≤ b.latest_ts)

/-- The aggregation of `compute_optimize_delta` for one revision key: fold
`add` over the traces carrying that revision tag, in input order. -/
def accFor (traces : List RecentTraceRecord) (rev : String) : RevisionAccumulator :=
  (traces.filter (fun t => t.revision == rev)).foldl RevisionAccumulator.add
    RevisionAccumulator.init

/-- The `BTreeMap` pass of `compute_optimize_delta`: the distinct revision
keys in ascending order, each aggregated and converted to metrics. -/
def metricsList (traces : List RecentTraceRecord) : List RevisionMetrics :=
  (sortLe strLe (traces.map (fun t => t.revision)).eraseDups).filterMap
    (fun rev => (accFor traces rev).into_metrics rev)

/-- The revision list after the stable `sort_by` on `latest_ts`. -/
def sortedMetrics (traces : List RecentTraceRecord) : List RevisionMetrics :=
  sortLe tsLe (metricsList traces)

/-- Placeholder metrics for the out-of-range default of a list read; the
guarded branches never reach it. -/
def defaultMetrics : RevisionMetrics :=
  { revision := "", total := 0, completion_rate := 0, avg_steps := 0,
    avg_tokens := 0, tasks := ∅, latest_ts := 0 }

/-- `revisions[revisions.len() - 2]`, the baseline revision. -/
def baselineOf (traces : List RecentTraceRecord) : RevisionMetrics :=
  (sortedMetrics traces).getD ((sortedMetrics traces).length - 2) defaultMetrics

/-- `revisions[revisions.len() - 1]`, the current revision. -/
def currentOf (traces : List RecentTraceRecord) : RevisionMetrics :=
  (sortedMetrics traces).getD ((sortedMetrics traces).length - 1) defaultMetrics

/-- `compute_optimize_delta` from main.rs. -/
def compute_optimize_delta (traces : List RecentTraceRecord)
    (thresholds : OptimizationThresholds) : OptimizeDelta :=
  let revisions := metricsList traces
  if revisions.length < 2 then
    { status := .InsufficientData, baseline_revision := none,
      current_revision := none, completion_delta := 0, token_delta_rel := 0,
      step_delta_rel := 0, task_overlap := 0, reason := some revisionCountReason }
  else
    let baseline := baselineOf traces
    let current := currentOf traces
    if baseline.total < thresholds.min_traces ∨ current.total < thresholds.min_traces then
      { status := .InsufficientData, baseline_revision := some baseline.revision,
        current_revision := some current.revision, completion_delta := 0,
        token_delta_rel := 0, step_delta_rel := 0, task_overlap := 0,
        reason := some (minTracesReason thresholds.min_traces baseline.total current.total) }
    else
      let overlap := compute_task_overlap baseline.tasks current.tasks
      if overlap < thresholds.task_overlap_threshold then
        { status := .InsufficientData, baseline_revision := some baseline.revision,
          current_revision := some current.revision, completion_delta := 0,
          token_delta_rel := 0, step_delta_rel := 0, task_overlap := overlap,
          reason := some (overlapReason overlap thresholds.task_overlap_threshold) }
      else
        let completion_delta := current.completion_rate - baseline.completion_rate
        let token_delta_rel := relative_delta baseline.avg_tokens current.avg_tokens
        let step_delta_rel := relative_delta baseline.avg_steps current.avg_steps
        let completion_signal : Int :=
          if thresholds.min_uplift_abs ≤ completion_delta then 1
          else if completion_delta ≤ -thresholds.min_uplift_abs then -1
          else 0
        let token_signal : Int :=
          if token_delta_rel ≤ -thresholds.min_uplift_rel then 1
          else if thresholds.min_uplift_rel ≤ token_delta_rel then -1
          else 0
        let step_signal : Int :=
          if step_delta_rel ≤ -thresholds.min_uplift_rel then 1
          else if thresholds.min_uplift_rel ≤ step_delta_rel then -1
          else 0
        let total_signal := completion_signal + token_signal + step_signal
        let statusReason : OptimizeDeltaStatus × Option String :=
          if 0 < total_signal then (.Improvement, none)
          else if total_signal < 0 then (.Regression, none)
          else (.Neutral, some neutralReason)
        { status := statusReason.1, baseline_revision := some baseline.revision,
          current_revision := some current.revision, completion_delta,
          token_delta_rel, step_delta_rel, task_overlap := overlap,
          reason := statusReason.2 }

/-! ## Reference computations stated from the specification text, used to
compare the classifier against its documented behavior -/

/-- Reference relative delta from the spec: `(current - baseline) / baseline`
when `|baseline|` is at least epsilon, else 0. -/
def specRelativeDelta (baseline current : ℚ) : ℚ :=
  if f32Epsilon ≤ |baseline| then (current - baseline) / baseline else 0

/-- Reference completion signal from the spec: +1 when the absolute delta
reaches `min_uplift_abs`, -1 when it reaches the negated bound, else 0. -/
def specCompletionSignal (completion_delta min_uplift_abs : ℚ) : Int :=
  if min_uplift_abs ≤ completion_delta then 1
  else if completion_delta ≤ -min_uplift_abs then -1
  else 0

/-- Reference token/step signal from the spec: a relative decrease of at
least `min_uplift_rel` counts +1, an increase of at least that counts -1. -/
def specCostSignal (delta_rel min_uplift_rel : ℚ) : Int :=
  if delta_rel ≤ -min_uplift_rel then 1
  else if min_uplift_rel ≤ delta_rel then -1
  else 0

/-- Reference classification from the spec: positive vote sum means
improvement, negative means regression, zero means neutral with the fixed
below-thresholds reason. -/
def specClassify (total_signal : Int) : OptimizeDeltaStatus × Option String :=
  if 0 < total_signal then (.Improvement, none)
  else if total_signal < 0 then (.Regression, none)
  else (.Neutral, some neutralReason)

/-- The signal vote sum of the spec for a given baseline/current pair. -/
def specTotalSignal (baseline current : RevisionMetrics)
    (th : OptimizationThresholds) : Int :=
  specCompletionSignal (current.completion_rate - baseline.completion_rate)
      th.min_uplift_abs +
    specCostSignal (specRelativeDelta baseline.avg_tokens current.avg_tokens)
      th.min_uplift_rel +
    specCostSignal (specRelativeDelta baseline.avg_steps current.avg_steps)
      th.min_uplift_rel

/-- The ranking order of the recommendation comparator, written as a
proposition: impact priority descending, then effort rank ascending, then
identifier ascending. -/
def recLe (a b : Recommendation) : Prop :=
  b.impact.priority < a.impact.priority ∨
    (a.impact.priority = b.impact.priority ∧
      (a.effort.rank < b.effort.rank ∨
        (a.effort.rank = b.effort.rank ∧ a.id ≤ b.id)))

/-! ## Concrete inputs for witnesses and examples -/

/-- Build one trace record. -/
def mkTrace (timestamp : Int) (task_id revision outcome : String)
    (steps token_est : Option Nat) : RecentTraceRecord :=
  { timestamp, task_id, revision, outcome, steps, token_est }

/-- Permissive thresholds for concrete runs: one trace per revision is
enough, the default uplift bounds and overlap threshold are kept. -/
def exThresholds : OptimizationThresholds :=
  { min_traces := 1, min_uplift_abs := 1 / 20, min_uplift_rel := 1 / 10,
    trace_staleness_days := 90, task_overlap_threshold := 1 / 2 }

/-- Thresholds whose overlap gate cannot fire: a zero overlap threshold. -/
def exThresholdsFree : OptimizationThresholds :=
  { min_traces := 1, min_uplift_abs := 1 / 20, min_uplift_rel := 1 / 10,
    trace_staleness_days := 90, task_overlap_threshold := 0 }

/-- Two revisions over the same two tasks; the later revision completes both
tasks with half the steps and tokens. -/
def exTracesImp : List RecentTraceRecord :=
  [ mkTrace 1 "t1" "a" "success" (some 10) (some 100),
    mkTrace 2 "t2" "a" "failure" (some 10) (some 100),
    mkTrace 3 "t1" "b" "success" (some 5) (some 50),
    mkTrace 4 "t2" "b" "success" (some 5) (some 50) ]

/-- A single revision: only one aggregated revision exists. -/
def exTracesOne : List RecentTraceRecord :=
  [ mkTrace 1 "t1" "a" "success" none none ]

/-- Two revisions whose name order is the reverse of their recency order:
revision z is older than revision a. -/
def exTracesRec : List RecentTraceRecord :=
  [ mkTrace 10 "t1" "a" "success" none none,
    mkTrace 1 "t1" "z" "failure" none none ]

/-- Two revisions with disjoint task sets. -/
def exTracesDisjoint : List RecentTraceRecord :=
  [ mkTrace 1 "t1" "a" "success" none none,
    mkTrace 2 "t2" "b" "success" none none ]

/-- A signal model with every documentation flag set and a quiet tool
inventory. -/
def exModel : RepoModel :=
  { file_count := 100,
    docs := { has_agents_md := true, agents_has_section_header := true,
              has_context_index := true, has_architecture_doc := true,
              readme_links_architecture := true, docs_age_days := some 1 },
    tools := { tool_names := [], risky_overlap_clusters := 0,
               unrestricted_destructive := 0, has_ambiguous_duplicates := false } }

/-- A configuration with no verification table: its verification sub-score
is zero. -/
def exConfigEmpty : HarnessConfig := { tools := none, verification := none }

/-- A configuration whose verification table satisfies every sub-score
criterion. -/
def exConfigFull : HarnessConfig :=
  { tools := none,
    verification := some { required := ["cargo test"],
                           pre_completion_required := true,
                           loop_guard_enabled := true } }

/-! ## Lemmas about the stable insertion sort -/

theorem insertLe_perm (le : α → α → Bool) (x : α) (l : List α) :
    (insertLe le x l).Perm (x :: l) := by
  induction l with
  | nil => exact List.Perm.refl _
  | cons y ys ih =>
    unfold insertLe
    by_cases h : le x y = true
    · rw [if_pos h]
    · rw [if_neg h]
      exact (ih.cons y).trans (List.Perm.swap x y ys)

theorem sortLe_perm (le : α → α → Bool) (l : List α) : (sortLe le l).Perm l := by
  induction l with
  | nil => exact List.Perm.refl _
  | cons a l ih => exact ((insertLe_perm le a (sortLe le l)).trans (ih.cons a))

theorem sortLe_length (le : α → α → Bool) (l : List α) :
    (sortLe le l).length = l.length :=
  (sortLe_perm le l).length_eq

theorem insertLe_pairwise (le : α → α → Bool)
    (htot : ∀ a b, le a b = true ∨ le b a = true)
    (htrans : ∀ a b c, le a b = true → le b c = true → le a c = true)
    (x : α) (l : List α) (hl : l.Pairwise (fun a b => le a b = true)) :
    (insertLe le x l).Pairwise (fun a b => le a b = true) := by
  induction l with
  | nil => simp [insertLe]
  | cons y ys ih =>
    rw [List.pairwise_cons] at hl
    obtain ⟨hy, hys⟩ := hl
    unfold insertLe
    by_cases h : le x y = true
    · rw [if_pos h]
      refine List.Pairwise.cons ?_ (List.Pairwise.cons hy hys)
      intro z hz
      rcases List.mem_cons.mp hz with rfl | hz
      · exact h
      · exact htrans x y z h (hy z hz)
    · rw [if_neg h]
      refine List.Pairwise.cons ?_ (ih hys)
      intro z hz
      have hz' : z ∈ x :: ys := (insertLe_perm le x ys).mem_iff.mp hz
      rcases List.mem_cons.mp hz' with rfl | hz'
      · rcases htot z y with hzy | hyz
        · exact absurd hzy h
        · exact hyz
      · exact hy z hz'

theorem sortLe_pairwise (le : α → α → Bool)
    (htot : ∀ a b, le a b = true ∨ le b a = true)
    (htrans : ∀ a b c, le a b = true → le b c = true → le a c = true)
    (l : List α) : (sortLe le l).Pairwise (fun a b => le a b = true) := by
  induction l with
  | nil => simp [sortLe]
  | cons a l ih => exact insertLe_pairwise le htot htrans a (sortLe le l) ih

theorem sortLe_eq_of_pairwise (le : α → α → Bool) (l : List α)
    (hl : l.Pairwise (fun a b => le a b = true)) : sortLe le l = l := by
  induction l with
  | nil => rfl
  | cons a l ih =>
    rw [List.pairwise_cons] at hl
    obtain ⟨ha, hl⟩ := hl
    show insertLe le a (sortLe le l) = a :: l
    rw [ih hl]
    cases l with
    | nil => rfl
    | cons b l => exact if_pos (ha b (List.mem_cons_self b l))

theorem sortLe_idem (le : α → α → Bool)
    (htot : ∀ a b, le a b = true ∨ le b a = true)
    (htrans : ∀ a b c, le a b = true → le b c = true → le a c = true)
    (l : List α) : sortLe le (sortLe le l) = sortLe le l :=
  sortLe_eq_of_pairwise le (sortLe le l) (sortLe_pairwise le htot htrans l)

/-! ## Lemmas about whitespace tokenization -/

theorem splitAux_chars (s : List Char) :
    (∀ c ∈ (splitAux s).1, isWS c = false) ∧
      (∀ t ∈ (splitAux s).2, ∀ c ∈ t, isWS c = false) := by
  induction s with
  | nil => simp [splitAux]
  | cons c cs ih =>
    by_cases h : isWS c = true
    · simp only [splitAux, h, if_true]
      refine ⟨by simp, ?_⟩
      intro t ht
      rcases List.mem_cons.mp ht with rfl | ht
      · exact ih.1
      · exact ih.2 t ht
    · simp only [splitAux, h, if_false]
      refine ⟨?_, ih.2⟩
      intro d hd
      rcases List.mem_cons.mp hd with rfl | hd
      · exact Bool.eq_false_iff.mpr h
      · exact ih.1 d hd

theorem splitWS_tokens (s : List Char) :
    ∀ t ∈ splitWS s, t ≠ [] ∧ ∀ c ∈ t, isWS c = false := by
  intro t ht
  unfold splitWS at ht
  have hne : ¬ t.isEmpty = true := by
    have := List.of_mem_filter ht
    simpa using this
  have hmem := List.mem_of_mem_filter ht
  refine ⟨by simpa [List.isEmpty_iff] using hne, ?_⟩
  rcases List.mem_cons.mp hmem with rfl | hmem
  · exact (splitAux_chars s).1
  · exact (splitAux_chars s).2 t hmem

theorem splitAux_nonws (t : List Char) (ht : ∀ c ∈ t, isWS c = false) :
    splitAux t = (t, []) := by
  induction t with
  | nil => rfl
  | cons c cs ih =>
    have hc : isWS c = false := ht c (List.mem_cons_self c cs)
    have ih' := ih (fun d hd => ht d (List.mem_cons_of_mem c hd))
    simp [splitAux, hc, ih']

theorem splitWS_nonws (t : List Char) (hne : t ≠ [])
    (ht : ∀ c ∈ t, isWS c = false) : splitWS t = [t] := by
  simp [splitWS, splitAux_nonws t ht, List.isEmpty_iff, hne]

theorem splitAux_append_space (x y : List Char) :
    splitAux (x ++ spaceChar :: y) =
      ((splitAux x).1, (splitAux x).2 ++ (splitAux y).1 :: (splitAux y).2) := by
  induction x with
  | nil =>
    have hsp : isWS spaceChar = true := by decide
    simp [splitAux, hsp]
  | cons c cs ih =>
    by_cases h : isWS c = true
    · simp [splitAux, h, ih]
    · simp [splitAux, h, ih]

theorem splitWS_append_space (x y : List Char) :
    splitWS (x ++ spaceChar :: y) = splitWS x ++ splitWS y := by
  unfold splitWS
  rw [splitAux_append_space, ← List.cons_append, List.filter_append]

theorem splitWS_joinSp (ts : List (List Char))
    (h : ∀ t ∈ ts, t ≠ [] ∧ ∀ c ∈ t, isWS c = false) :
    splitWS (joinSp ts) = ts := by
  induction ts with
  | nil => rfl
  | cons t ts ih =>
    cases ts with
    | nil =>
      obtain ⟨hne, hch⟩ := h t (List.mem_cons_self t [])
      simpa [joinSp] using splitWS_nonws t hne hch
    | cons t2 ts2 =>
      obtain ⟨hne, hch⟩ := h t (List.mem_cons_self t _)
      have ih' := ih (fun u hu => h u (List.mem_cons_of_mem t hu))
      show splitWS (t ++ spaceChar :: joinSp (t2 :: ts2)) = t :: t2 :: ts2
      rw [splitWS_append_space, splitWS_nonws t hne hch, ih']
      rfl

theorem splitWS_normalize (s : List Char) : splitWS (normalize s) = splitWS s :=
  splitWS_joinSp (splitWS s) (splitWS_tokens s)

theorem normalize_eq_nil (s : List Char) (h : splitWS s = []) : normalize s = [] := by
  unfold normalize
  rw [h]
  rfl

theorem splitWS_eq_nil_of_normalize (s : List Char) (h : normalize s = []) :
    splitWS s = [] := by
  have := splitWS_normalize s
  rw [h] at this
  simpa [splitWS, splitAux] using this.symm

theorem joinSp_ne_nil (ts : List (List Char)) (hne : ts ≠ [])
    (h : ∀ t ∈ ts, t ≠ []) : joinSp ts ≠ [] := by
  cases ts with
  | nil => exact absurd rfl hne
  | cons t ts2 =>
    cases ts2 with
    | nil => exact h t (List.mem_cons_self t [])
    | cons t2 ts3 =>
      have := h t (List.mem_cons_self t _)
      simp only [joinSp, ne_eq, List.append_eq_nil]
      rintro ⟨-, h2⟩
      exact List.cons_ne_nil _ _ h2

/-! ## Lemmas about the token matcher -/

theorem starts_with_iff (l r : List (List Char)) :
    starts_with_tokens l r = true ↔ r <+: l := by
  induction r generalizing l with
  | nil => simp [starts_with_tokens]
  | cons a r ih =>
    cases l with
    | nil => simp [starts_with_tokens]
    | cons b l =>
      have h := ih l
      simp only [starts_with_tokens, List.zip_cons_cons, List.all_cons, List.length_cons,
        Bool.and_eq_true, decide_eq_true_eq, beq_iff_eq, List.cons_prefix_cons] at *
      constructor
      · rintro ⟨hlen, hba, hall⟩
        exact ⟨hba.symm, h.mp ⟨Nat.le_of_succ_le_succ hlen, hall⟩⟩
      · rintro ⟨hab, hr⟩
        obtain ⟨hlen, hall⟩ := h.mpr hr
        exact ⟨Nat.succ_le_succ hlen, hab.symm, hall⟩

theorem command_matches_iff (c r : List Char) :
    command_matches c r = true ↔
      splitWS c ≠ [] ∧ splitWS r ≠ [] ∧
        (splitWS c <+: splitWS r ∨ splitWS r <+: splitWS c) := by
  simp only [command_matches]
  by_cases hc : splitWS c = []
  · simp [hc]
  · by_cases hr : splitWS r = []
    · simp [hc, hr]
    · have hcond : ¬ ((splitWS c).isEmpty || (splitWS r).isEmpty) = true := by
        simp [List.isEmpty_iff, hc, hr]
      rw [if_neg hcond]
      simp only [Bool.or_eq_true, starts_with_iff, ne_eq, hc, hr, not_false_eq_true, true_and]
      tauto

/-! ## Lemmas about alias expansion -/

theorem expandAliasesAux_succ (A : List (List Char × List Char)) (fuel : Nat)
    (seen : List (List Char)) (c : List Char) :
    expandAliasesAux A (fuel + 1) seen c =
      match splitWS c with
      | [] => c
      | head :: tailToks =>
        if seen.contains head then c
        else
          match List.lookup head A with
          | none => c
          | some target =>
            expandAliasesAux A fuel (head :: seen)
              (if (joinSp tailToks).isEmpty then normalize target
               else normalize (target ++ spaceChar :: joinSp tailToks)) := rfl

theorem expandAliasesAux_nil_input (A : List (List Char × List Char))
    (fuel : Nat) (seen : List (List Char)) :
    expandAliasesAux A fuel seen [] = [] := by
  cases fuel with
  | zero => rfl
  | succ fuel => rfl

/-! ## Claim theorems for the command policy -/

/-- C1: `is_forbidden_with_policy` holds exactly when some forbidden rule
matches the normalized, alias-expanded candidate bidirectionally — the
candidate token sequence is a prefix of the rule token sequence or the rule
token sequence is a prefix of the candidate token sequence, both sides being
nonempty.  In particular "git push --force origin main" is forbidden under
rule "git push --force", "git push origin main" is not, and bare "rm" is
forbidden under rule "rm -rf". -/
theorem claim_C1 :
    (∀ (policy : CommandPolicy) (cmd : List Char),
      is_forbidden_with_policy cmd policy = true ↔
        ∃ rule ∈ policy.forbidden,
          splitWS (expand_aliases (normalize cmd) policy.aliases) ≠ [] ∧
          splitWS rule ≠ [] ∧
          (splitWS (expand_aliases (normalize cmd) policy.aliases) <+: splitWS rule ∨
            splitWS rule <+: splitWS (expand_aliases (normalize cmd) policy.aliases))) ∧
    is_forbidden_with_policy "git push --force origin main".data
      { forbidden := ["git push --force".data], aliases := [] } = true ∧
    is_forbidden_with_policy "git push origin main".data
      { forbidden := ["git push --force".data], aliases := [] } = false ∧
    is_forbidden_with_policy "rm".data
      { forbidden := ["rm -rf".data], aliases := [] } = true := by
  refine ⟨?_, by decide, by decide, by decide⟩
  intro policy cmd
  simp only [is_forbidden_with_policy]
  by_cases he : expand_aliases (normalize cmd) policy.aliases = []
  · rw [he]
    simp [splitWS, splitAux]
  · rw [if_neg (by simp [List.isEmpty_iff, he])]
    simp only [List.any_eq_true, List.mem_map]
    constructor
    · rintro ⟨nrule, ⟨rule, hrule, rfl⟩, hm⟩
      have h := (command_matches_iff _ _).mp hm
      rw [splitWS_normalize] at h
      exact ⟨rule, hrule, h⟩
    · rintro ⟨rule, hrule, h⟩
      refine ⟨normalize rule, ⟨rule, hrule, rfl⟩, ?_⟩
      apply (command_matches_iff _ _).mpr
      rw [splitWS_normalize]
      exact h

/-- C10: a candidate that is empty or all whitespace is never forbidden, and
a rule with an empty token sequence matches no candidate; witnessed on the
empty string and a blank string against rule "rm -rf". -/
theorem claim_C10 :
    (∀ (policy : CommandPolicy) (cmd : List Char), splitWS cmd = [] →
      is_forbidden_with_policy cmd policy = false) ∧
    (∀ (cmd rule : List Char), splitWS rule = [] →
      command_matches cmd (normalize rule) = false) ∧
    is_forbidden_with_policy [] { forbidden := ["rm -rf".data], aliases := [] } = false ∧
    is_forbidden_with_policy "   ".data
      { forbidden := ["rm -rf".data], aliases := [] } = false := by
  refine ⟨?_, ?_, by decide, by decide⟩
  · intro policy cmd h
    have h1 : normalize cmd = [] := normalize_eq_nil cmd h
    simp only [is_forbidden_with_policy, h1, expand_aliases, expandAliasesAux_nil_input]
    rfl
  · intro cmd rule h
    have h1 : splitWS (normalize rule) = [] := by rw [splitWS_normalize]; exact h
    simp [command_matches, h1]

/-- C5: alias expansion stops when the fuel runs out, stops when the head
token has no alias entry, stops when a head token repeats, and otherwise
replaces only the head token by its re-normalized expansion (the tail tokens
survive unchanged) before iterating with one unit of fuel less; so with
alias gpf to "git push --force" and rule "git push --force" the command
"gpf origin main" is forbidden. -/
theorem claim_C5 :
    (∀ (A : List (List Char × List Char)) (seen : List (List Char)) (c : List Char),
      expandAliasesAux A 0 seen c = c) ∧
    (∀ (A : List (List Char × List Char)) (c hd : List Char) (ts : List (List Char)),
      splitWS c = hd :: ts → List.lookup hd A = none → expand_aliases c A = c) ∧
    (∀ (A : List (List Char × List Char)) (fuel : Nat) (seen : List (List Char))
      (c hd : List Char) (ts : List (List Char)),
      splitWS c = hd :: ts → seen.contains hd = true →
      expandAliasesAux A (fuel + 1) seen c = c) ∧
    (∀ (A : List (List Char × List Char)) (c hd target : List Char)
      (ts : List (List Char)),
      splitWS c = hd :: ts → List.lookup hd A = some target → ts ≠ [] →
      expand_aliases c A =
        expandAliasesAux A 7 [hd] (normalize (target ++ spaceChar :: joinSp ts)) ∧
      splitWS (normalize (target ++ spaceChar :: joinSp ts)) = splitWS target ++ ts) ∧
    is_forbidden_with_policy "gpf origin main".data
      { forbidden := ["git push --force".data],
        aliases := [("gpf".data, "git push --force".data)] } = true := by
  refine ⟨fun A seen c => rfl, ?_, ?_, ?_, by decide⟩
  · intro A c hd ts hsplit hlook
    show expandAliasesAux A (7 + 1) [] c = c
    rw [expandAliasesAux_succ, hsplit]
    simp [hlook]
  · intro A fuel seen c hd ts hsplit hseen
    rw [expandAliasesAux_succ, hsplit]
    exact if_pos hseen
  · intro A c hd target ts hsplit hlook hne
    have htoks := splitWS_tokens c
    rw [hsplit] at htoks
    have htail : ∀ t ∈ ts, t ≠ [] ∧ ∀ ch ∈ t, isWS ch = false :=
      fun t ht => htoks t (List.mem_cons_of_mem hd ht)
    have hjoin : (joinSp ts).isEmpty = false := by
      have hnil := joinSp_ne_nil ts hne (fun t ht => (htail t ht).1)
      rw [Bool.eq_false_iff]
      simpa [List.isEmpty_iff] using hnil
    constructor
    · show expandAliasesAux A (7 + 1) [] c = _
      rw [expandAliasesAux_succ, hsplit]
      simp [hlook, hjoin]
    · rw [splitWS_normalize, splitWS_append_space,
        splitWS_joinSp ts htail]

/-! ## Claim theorems for the score-card finalizer -/

theorem clamp01_nonneg (x : ℚ) : 0 ≤ clamp01 x := le_max_left 0 _

theorem clamp01_le_one (x : ℚ) : clamp01 x ≤ 1 :=
  max_le zero_le_one (min_le_left 1 x)

/-- C4 counterexample: with the all-ones card and the malformed weight
vector (2, 0, 0, 0, 0), `finalize` produces an overall of 2, outside [0, 1];
so the claim fails for arbitrary weight vectors. -/
theorem claim_C4_cex :
    ¬ ((ScoreCard.finalize
        { context := 1, tools := 1, continuity := 1, verification := 1,
          repository_quality := 1, overall := 0 }
        { context := 2, tools := 0, continuity := 0, verification := 0,
          repository_quality := 0 }).overall ≤ 1) := by
  norm_num [ScoreCard.finalize, ScoreCard.weighted_overall, ScoreCard.clamped, clamp01]

/-- C4 amended: the five category fields of the finalized card always lie in
[0, 1], for every weight vector; the overall field lies in [0, 1] whenever
the weights are nonnegative and sum to at most 1 (malformed weight vectors
can push it outside, as the counterexample shows). -/
theorem claim_C4 :
    ∀ (card : ScoreCard) (w : Weights),
      (0 ≤ (card.finalize w).context ∧ (card.finalize w).context ≤ 1) ∧
      (0 ≤ (card.finalize w).tools ∧ (card.finalize w).tools ≤ 1) ∧
      (0 ≤ (card.finalize w).continuity ∧ (card.finalize w).continuity ≤ 1) ∧
      (0 ≤ (card.finalize w).verification ∧ (card.finalize w).verification ≤ 1) ∧
      (0 ≤ (card.finalize w).repository_quality ∧
        (card.finalize w).repository_quality ≤ 1) ∧
      ((0 ≤ w.context ∧ 0 ≤ w.tools ∧ 0 ≤ w.continuity ∧ 0 ≤ w.verification ∧
          0 ≤ w.repository_quality ∧
          w.context + w.tools + w.continuity + w.verification +
            w.repository_quality ≤ 1) →
        0 ≤ (card.finalize w).overall ∧ (card.finalize w).overall ≤ 1) := by
  intro card w
  refine ⟨⟨clamp01_nonneg _, clamp01_le_one _⟩, ⟨clamp01_nonneg _, clamp01_le_one _⟩,
    ⟨clamp01_nonneg _, clamp01_le_one _⟩, ⟨clamp01_nonneg _, clamp01_le_one _⟩,
    ⟨clamp01_nonneg _, clamp01_le_one _⟩, ?_⟩
  rintro ⟨h1, h2, h3, h4, h5, hsum⟩
  have hov : (card.finalize w).overall =
      clamp01 (clamp01 card.context) * w.context +
      clamp01 (clamp01 card.tools) * w.tools +
      clamp01 (clamp01 card.continuity) * w.continuity +
      clamp01 (clamp01 card.verification) * w.verification +
      clamp01 (clamp01 card.repository_quality) * w.repository_quality := rfl
  rw [hov]
  constructor
  · refine add_nonneg (add_nonneg (add_nonneg (add_nonneg ?_ ?_) ?_) ?_) ?_ <;>
      exact mul_nonneg (clamp01_nonneg _) (by assumption)
  · have b1 := mul_le_of_le_one_left h1 (clamp01_le_one (clamp01 card.context))
    have b2 := mul_le_of_le_one_left h2 (clamp01_le_one (clamp01 card.tools))
    have b3 := mul_le_of_le_one_left h3 (clamp01_le_one (clamp01 card.continuity))
    have b4 := mul_le_of_le_one_left h4 (clamp01_le_one (clamp01 card.verification))
    have b5 := mul_le_of_le_one_left h5
      (clamp01_le_one (clamp01 card.repository_quality))
    linarith

/-! ## Lemmas about the recommendation comparator -/

theorem then_eq_gt (o p : Ordering) :
    o.then p = .gt ↔ o = .gt ∨ (o = .eq ∧ p = .gt) := by
  cases o <;> simp [Ordering.then]

theorem then_eq_eq (o p : Ordering) : o.then p = .eq ↔ o = .eq ∧ p = .eq := by
  cases o <;> simp [Ordering.then]

theorem natCompare_eq_gt (a b : Nat) : natCompare a b = .gt ↔ b < a := by
  unfold natCompare
  split_ifs with h1 h2 <;> simp <;> omega

theorem natCompare_eq_eq (a b : Nat) : natCompare a b = .eq ↔ a = b := by
  unfold natCompare
  split_ifs with h1 h2 <;> simp <;> omega

theorem strCompare_eq_gt (a b : String) : strCompare a b = .gt ↔ b < a := by
  unfold strCompare
  split_ifs with h1 h2
  · exact iff_of_false (by decide) (lt_asymm h1)
  · exact iff_of_true rfl h2
  · exact iff_of_false (by decide) h2

theorem strCompare_eq_eq (a b : String) : strCompare a b = .eq ↔ a = b := by
  unfold strCompare
  split_ifs with h1 h2
  · exact iff_of_false (by decide) (ne_of_lt h1)
  · exact iff_of_false (by decide) (ne_of_gt h2)
  · exact iff_of_true rfl (le_antisymm (le_of_not_lt h2) (le_of_not_lt h1))

theorem cmpRec_ne_gt (a b : Recommendation) : ¬ cmpRec a b = .gt ↔ recLe a b := by
  unfold cmpRec recLe
  rw [then_eq_gt, then_eq_gt, natCompare_eq_gt, natCompare_eq_eq,
    natCompare_eq_gt, natCompare_eq_eq, strCompare_eq_gt]
  push_neg
  constructor
  · rintro ⟨h1, h2⟩
    rcases lt_or_eq_of_le h1 with h | h
    · exact Or.inl h
    · obtain ⟨hr, hid⟩ := h2 h
      refine Or.inr ⟨h.symm, ?_⟩
      rcases lt_or_eq_of_le hr with h' | h'
      · exact Or.inl h'
      · exact Or.inr ⟨h', hid h'⟩
  · rintro (h | ⟨he, hin⟩)
    · exact ⟨le_of_lt h, fun heq => absurd heq (ne_of_lt h)⟩
    · refine ⟨he.ge, fun _ => ?_⟩
      rcases hin with h' | ⟨h'e, h'id⟩
      · exact ⟨le_of_lt h', fun heq => absurd heq (ne_of_lt h')⟩
      · exact ⟨h'e.le, fun _ => h'id⟩

theorem cmpRec_eq_eq (a b : Recommendation) :
    cmpRec a b = .eq ↔ a.impact.priority = b.impact.priority ∧
      a.effort.rank = b.effort.rank ∧ a.id = b.id := by
  unfold cmpRec
  rw [then_eq_eq, then_eq_eq, natCompare_eq_eq, natCompare_eq_eq, strCompare_eq_eq]
  constructor
  · rintro ⟨h1, h2, h3⟩
    exact ⟨h1.symm, h2, h3⟩
  · rintro ⟨h1, h2, h3⟩
    exact ⟨h1.symm, h2, h3⟩

theorem recLe_total (a b : Recommendation) : recLe a b ∨ recLe b a := by
  unfold recLe
  rcases Nat.lt_trichotomy a.impact.priority b.impact.priority with h | h | h
  · exact Or.inr (Or.inl h)
  · rcases Nat.lt_trichotomy a.effort.rank b.effort.rank with h' | h' | h'
    · exact Or.inl (Or.inr ⟨h, Or.inl h'⟩)
    · rcases le_total a.id b.id with hid | hid
      · exact Or.inl (Or.inr ⟨h, Or.inr ⟨h', hid⟩⟩)
      · exact Or.inr (Or.inr ⟨h.symm, Or.inr ⟨h'.symm, hid⟩⟩)
    · exact Or.inr (Or.inr ⟨h.symm, Or.inl h'⟩)
  · exact Or.inl (Or.inl h)

theorem recLe_trans (a b c : Recommendation) (h1 : recLe a b) (h2 : recLe b c) :
    recLe a c := by
  unfold recLe at *
  rcases h1 with h1 | ⟨h1e, h1r⟩ <;> rcases h2 with h2 | ⟨h2e, h2r⟩
  · exact Or.inl (lt_trans h2 h1)
  · exact Or.inl (h2e ▸ h1)
  · refine Or.inl ?_
    rw [h1e]
    exact h2
  · refine Or.inr ⟨h1e.trans h2e, ?_⟩
    rcases h1r with hr | ⟨hre, hid⟩ <;> rcases h2r with hr2 | ⟨hre2, hid2⟩
    · exact Or.inl (lt_trans hr hr2)
    · exact Or.inl (hre2 ▸ hr)
    · refine Or.inl ?_
      rw [hre]
      exact hr2
    · exact Or.inr ⟨hre.trans hre2, le_trans hid hid2⟩

theorem leRecBool_iff (a b : Recommendation) :
    (!(cmpRec a b == Ordering.gt)) = true ↔ recLe a b := by
  rw [← cmpRec_ne_gt]
  cases h : cmpRec a b <;> decide

theorem leRecBool_total (a b : Recommendation) :
    (!(cmpRec a b == Ordering.gt)) = true ∨ (!(cmpRec b a == Ordering.gt)) = true := by
  rcases recLe_total a b with h | h
  · exact Or.inl ((leRecBool_iff a b).mpr h)
  · exact Or.inr ((leRecBool_iff b a).mpr h)

theorem leRecBool_trans (a b c : Recommendation)
    (h1 : (!(cmpRec a b == Ordering.gt)) = true)
    (h2 : (!(cmpRec b c == Ordering.gt)) = true) :
    (!(cmpRec a c == Ordering.gt)) = true :=
  (leRecBool_iff a c).mpr
    (recLe_trans a b c ((leRecBool_iff a b).mp h1) ((leRecBool_iff b c).mp h2))

/-- C7: recommendation ranking permutes the input, orders it by impact
priority descending then effort rank ascending then identifier ascending, is
idempotent, only deems recommendations with equal identifiers tied, and in
the sorted output every High/Xs entry sits strictly before every Medium/Xs
entry. -/
theorem claim_C7 :
    (∀ l : List Recommendation, (sort_recommendations l).Perm l) ∧
    (∀ l : List Recommendation, (sort_recommendations l).Pairwise recLe) ∧
    (∀ l : List Recommendation,
      sort_recommendations (sort_recommendations l) = sort_recommendations l) ∧
    (∀ a b : Recommendation, cmpRec a b = .eq → a.id = b.id) ∧
    (∀ (l : List Recommendation) (i j : Fin (sort_recommendations l).length),
      ((sort_recommendations l).get i).impact = .High →
      ((sort_recommendations l).get i).effort = .Xs →
      ((sort_recommendations l).get j).impact = .Medium →
      ((sort_recommendations l).get j).effort = .Xs →
      (i : Nat) < (j : Nat)) := by
  have hpair : ∀ l : List Recommendation,
      (sort_recommendations l).Pairwise recLe := by
    intro l
    have h := sortLe_pairwise (fun a b => !(cmpRec a b == Ordering.gt))
      leRecBool_total leRecBool_trans l
    exact h.imp (fun hab => (leRecBool_iff _ _).mp hab)
  refine ⟨fun l => sortLe_perm _ l, hpair, ?_, ?_, ?_⟩
  · intro l
    exact sortLe_idem (fun a b => !(cmpRec a b == Ordering.gt))
      leRecBool_total leRecBool_trans l
  · intro a b h
    exact ((cmpRec_eq_eq a b).mp h).2.2
  · intro l i j hiImp hiEff hjImp hjEff
    rcases Nat.lt_trichotomy (i : Nat) (j : Nat) with h | h | h
    · exact h
    · exfalso
      have hij : i = j := Fin.ext h
      subst hij
      rw [hiImp] at hjImp
      exact Impact.noConfusion hjImp
    · exfalso
      have hrec := List.pairwise_iff_get.mp (hpair l) j i h
      unfold recLe at hrec
      rw [hiImp, hjImp] at hrec
      rcases hrec with h' | ⟨h', -⟩
      · exact absurd h' (by decide)
      · exact absurd h' (by decide)

/-! ## Claim theorem for the task-overlap computation -/

/-- C9: the task overlap is the Jaccard similarity of the two task sets, and
it is 0 (not 1) when both sets are empty; checked concretely on the empty
pair and on sets with one shared task out of three. -/
theorem claim_C9 :
    (∀ a b : Finset String, a = ∅ ∧ b = ∅ → compute_task_overlap a b = 0) ∧
    (∀ a b : Finset String, ¬ (a = ∅ ∧ b = ∅) →
      compute_task_overlap a b = ((a ∩ b).card : ℚ) / ((a ∪ b).card : ℚ)) ∧
    compute_task_overlap ∅ ∅ = 0 ∧
    compute_task_overlap {"t1", "t2"} {"t2", "t3"} = 1 / 3 := by
  have hconc : compute_task_overlap {"t1", "t2"} {"t2", "t3"} = 1 / 3 := by
    have h1 : (({"t1", "t2"} : Finset String) ∩ {"t2", "t3"}).card = 1 := by decide
    have h2 : (({"t1", "t2"} : Finset String) ∪ {"t2", "t3"}).card = 3 := by decide
    have hne : ¬ (({"t1", "t2"} : Finset String) = ∅ ∧
        ({"t2", "t3"} : Finset String) = ∅) := by decide
    simp only [compute_task_overlap]
    rw [if_neg hne, h1, h2]
    norm_num
  refine ⟨?_, ?_, rfl, hconc⟩
  · intro a b h
    simp [compute_task_overlap, h]
  · intro a b h
    have hunion : a ∪ b ≠ ∅ := by
      rw [ne_eq, Finset.union_eq_empty]
      exact h
    have hcard : ((a ∪ b).card : ℚ) ≠ 0 := by
      rw [ne_eq, Nat.cast_eq_zero, Finset.card_eq_zero]
      exact hunion
    simp [compute_task_overlap, h, hcard]

/-! ## Claim theorem for the verification findings -/

theorem mem_ite_nil (p : Prop) [Decidable p] (x a : α) :
    a ∈ (if p then [x] else []) ↔ p ∧ a = x := by
  split_ifs with h <;> simp [h]

theorem mem_ite_ite_nil (p q : Prop) [Decidable p] [Decidable q] (x y a : α) :
    a ∈ (if p then [x] else if q then [y] else []) ↔
      (p ∧ a = x) ∨ (¬ p ∧ q ∧ a = y) := by
  split_ifs with h1 h2
  · simp [h1]
  · simp [h1, h2]
  · simp [h1, h2]

theorem analyze_findings_id_cases (model : RepoModel)
    (config : Option HarnessConfig) (f : Finding)
    (hf : f ∈ analyze_findings model config) :
    f.id = "context.missing_agents" ∨ f.id = "context.missing_index" ∨
    f.id = "tools.destructive_exposed" ∨ f.id = "tools.observe" ∨
    f.id = "tools.deprecated" ∨ f.id = "tools.disabled" ∨
    (f.id = "verification.incomplete" ∧ f.blocking = true ∧
      config.isSome = true ∧ verification_score config < 1 / 2) ∨
    (f.id = "verification.missing_config" ∧ f.blocking = false ∧
      config = none) := by
  simp only [analyze_findings] at hf
  rcases List.mem_append.mp hf with hf1 | hfE
  · rcases List.mem_append.mp hf1 with hf2 | hfD
    · rcases List.mem_append.mp hf2 with hf3 | hfC
      · rcases List.mem_append.mp hf3 with hfA | hfB
        · obtain ⟨-, rfl⟩ := (mem_ite_nil _ _ _).mp hfA
          exact Or.inl rfl
        · obtain ⟨-, rfl⟩ := (mem_ite_nil _ _ _).mp hfB
          exact Or.inr (Or.inl rfl)
      · obtain ⟨-, rfl⟩ := (mem_ite_nil _ _ _).mp hfC
        exact Or.inr (Or.inr (Or.inl rfl))
    · rcases hdep : (config.bind fun cfg => cfg.tools).bind
          (fun tools => tools.deprecated) with _ | d
      all_goals rw [hdep] at hfD
      · exact absurd hfD (List.not_mem_nil f)
      · rcases List.mem_append.mp hfD with hfD1 | hfDis
        · rcases List.mem_append.mp hfD1 with hfObs | hfDep
          · obtain ⟨-, rfl⟩ := (mem_ite_nil _ _ _).mp hfObs
            exact Or.inr (Or.inr (Or.inr (Or.inl rfl)))
          · obtain ⟨-, rfl⟩ := (mem_ite_nil _ _ _).mp hfDep
            exact Or.inr (Or.inr (Or.inr (Or.inr (Or.inl rfl))))
        · obtain ⟨-, rfl⟩ := (mem_ite_nil _ _ _).mp hfDis
          exact Or.inr (Or.inr (Or.inr (Or.inr (Or.inr (Or.inl rfl)))))
  · rcases (mem_ite_ite_nil _ _ _ _ _).mp hfE with ⟨⟨hs, hv⟩, rfl⟩ | ⟨-, hn, rfl⟩
    · exact Or.inr (Or.inr (Or.inr (Or.inr (Or.inr (Or.inr (Or.inl
        ⟨rfl, rfl, hs, hv⟩))))))
    · exact Or.inr (Or.inr (Or.inr (Or.inr (Or.inr (Or.inr (Or.inr
        ⟨rfl, rfl, Option.isNone_iff_eq_none.mp hn⟩))))))

theorem verification_incomplete_mem (model : RepoModel)
    (config : Option HarnessConfig) (h1 : config.isSome = true)
    (h2 : verification_score config < 1 / 2) :
    { id := "verification.incomplete", title := "Verification policy incomplete",
      body := "Verification requirements are incomplete or missing pre-completion checks.",
      blocking := true, file := some "harness.toml" : Finding } ∈
      analyze_findings model config := by
  simp only [analyze_findings]
  refine List.mem_append_right _ ?_
  rw [if_pos ⟨h1, h2⟩]
  exact List.mem_singleton_self _

theorem missing_config_mem (model : RepoModel) :
    { id := "verification.missing_config", title := "Verification policy unavailable",
      body := "Verification checks cannot be evaluated because harness.toml is missing.",
      blocking := false, file := some "harness.toml" : Finding } ∈
      analyze_findings model none := by
  simp only [analyze_findings]
  refine List.mem_append_right _ ?_
  rw [if_neg (by simp),
    if_pos (show (none : Option HarnessConfig).isNone = true from rfl)]
  exact List.mem_singleton_self _

/-- C8: with no configuration the generator emits the non-blocking
"verification unavailable" finding and never the blocking one; with a
configuration whose verification sub-score is below one half it emits the
blocking "verification incomplete" finding and never the unavailable one;
with a configuration at or above one half it emits neither. -/
theorem claim_C8 :
    ∀ (model : RepoModel) (config : Option HarnessConfig),
      (config = none →
        (∃ f ∈ analyze_findings model config,
          f.id = "verification.missing_config" ∧ f.blocking = false) ∧
        ∀ f ∈ analyze_findings model config, f.id ≠ "verification.incomplete") ∧
      (∀ cfg, config = some cfg → verification_score config < 1 / 2 →
        (∃ f ∈ analyze_findings model config,
          f.id = "verification.incomplete" ∧ f.blocking = true) ∧
        ∀ f ∈ analyze_findings model config, f.id ≠ "verification.missing_config") ∧
      (∀ cfg, config = some cfg → ¬ verification_score config < 1 / 2 →
        (∀ f ∈ analyze_findings model config, f.id ≠ "verification.incomplete") ∧
        ∀ f ∈ analyze_findings model config, f.id ≠ "verification.missing_config") := by
  intro model config
  refine ⟨?_, ?_, ?_⟩
  · rintro rfl
    constructor
    · exact ⟨_, missing_config_mem model, rfl, rfl⟩
    · intro f hf hid
      rcases analyze_findings_id_cases model none f hf with
        h | h | h | h | h | h | ⟨-, -, hs, -⟩ | ⟨h, -, -⟩ <;>
        first
          | (rw [hid] at h; exact absurd h (by decide))
          | exact absurd hs (by simp)
  · rintro cfg rfl h2
    constructor
    · exact ⟨_, verification_incomplete_mem model (some cfg) rfl h2, rfl, rfl⟩
    · intro f hf hid
      rcases analyze_findings_id_cases model (some cfg) f hf with
        h | h | h | h | h | h | ⟨h, -, -⟩ | ⟨-, -, hn⟩ <;>
        first
          | (rw [hid] at h; exact absurd h (by decide))
          | exact Option.noConfusion hn
  · rintro cfg rfl h2
    constructor
    · intro f hf hid
      rcases analyze_findings_id_cases model (some cfg) f hf with
        h | h | h | h | h | h | ⟨-, -, -, hv⟩ | ⟨h, -, -⟩ <;>
        first
          | (rw [hid] at h; exact absurd h (by decide))
          | exact absurd hv h2
    · intro f hf hid
      rcases analyze_findings_id_cases model (some cfg) f hf with
        h | h | h | h | h | h | ⟨h, -, -⟩ | ⟨-, -, hn⟩ <;>
        first
          | (rw [hid] at h; exact absurd h (by decide))
          | exact Option.noConfusion hn

/-! ## Claim theorems for the optimization delta classifier -/

theorem compute_task_overlap_nonneg (a b : Finset String) :
    0 ≤ compute_task_overlap a b := by
  simp only [compute_task_overlap]
  split_ifs
  · exact le_refl 0
  · exact le_refl 0
  · exact div_nonneg (Nat.cast_nonneg _) (Nat.cast_nonneg _)

theorem tsLe_total (a b : RevisionMetrics) : tsLe a b = true ∨ tsLe b a = true := by
  simp only [tsLe, decide_eq_true_eq]
  exact le_total a.latest_ts b.latest_ts

theorem tsLe_trans (a b c : RevisionMetrics) (h1 : tsLe a b = true)
    (h2 : tsLe b c = true) : tsLe a c = true := by
  simp only [tsLe, decide_eq_true_eq] at *
  exact le_trans h1 h2

/-- C3: the three gates of the classifier each short-circuit to
InsufficientData with the exact reason text naming the failed precondition
and its numbers, and the status is InsufficientData exactly when one of the
gates fails. -/
theorem claim_C3 :
    ∀ (traces : List RecentTraceRecord) (th : OptimizationThresholds),
      ((metricsList traces).length < 2 →
        (compute_optimize_delta traces th).status = .InsufficientData ∧
        (compute_optimize_delta traces th).reason = some revisionCountReason) ∧
      (¬ (metricsList traces).length < 2 →
        ((baselineOf traces).total < th.min_traces ∨
          (currentOf traces).total < th.min_traces) →
        (compute_optimize_delta traces th).status = .InsufficientData ∧
        (compute_optimize_delta traces th).reason =
          some (minTracesReason th.min_traces (baselineOf traces).total
            (currentOf traces).total)) ∧
      (¬ (metricsList traces).length < 2 →
        ¬ ((baselineOf traces).total < th.min_traces ∨
          (currentOf traces).total < th.min_traces) →
        compute_task_overlap (baselineOf traces).tasks (currentOf traces).tasks <
          th.task_overlap_threshold →
        (compute_optimize_delta traces th).status = .InsufficientData ∧
        (compute_optimize_delta traces th).reason =
          some (overlapReason
            (compute_task_overlap (baselineOf traces).tasks (currentOf traces).tasks)
            th.task_overlap_threshold)) ∧
      ((compute_optimize_delta traces th).status = .InsufficientData ↔
        ((metricsList traces).length < 2 ∨
          (¬ (metricsList traces).length < 2 ∧
            ((baselineOf traces).total < th.min_traces ∨
              (currentOf traces).total < th.min_traces)) ∨
          (¬ (metricsList traces).length < 2 ∧
            ¬ ((baselineOf traces).total < th.min_traces ∨
              (currentOf traces).total < th.min_traces) ∧
            compute_task_overlap (baselineOf traces).tasks
              (currentOf traces).tasks < th.task_overlap_threshold))) := by
  intro traces th
  by_cases h1 : (metricsList traces).length < 2
  · simp only [compute_optimize_delta, if_pos h1]
    refine ⟨fun _ => ⟨by trivial, by trivial⟩, fun h => absurd h1 h,
      fun h => absurd h1 h, ?_⟩
    simp [h1]
  · by_cases h2 : (baselineOf traces).total < th.min_traces ∨
        (currentOf traces).total < th.min_traces
    · simp only [compute_optimize_delta, if_neg h1, if_pos h2]
      refine ⟨fun h => absurd h h1, fun _ _ => ⟨by trivial, by trivial⟩,
        fun _ h => absurd h2 h, ?_⟩
      simp [h1, h2]
    · by_cases h3 : compute_task_overlap (baselineOf traces).tasks
          (currentOf traces).tasks < th.task_overlap_threshold
      · simp only [compute_optimize_delta, if_neg h1, if_neg h2, if_pos h3]
        refine ⟨fun h => absurd h h1, fun _ h => absurd h h2,
          fun _ _ _ => ⟨by trivial, by trivial⟩, ?_⟩
        simp [h1, h2, h3]
      · simp only [compute_optimize_delta, if_neg h1, if_neg h2, if_neg h3]
        refine ⟨fun h => absurd h h1, fun _ h => absurd h h2,
          fun _ _ h => absurd h h3, ?_⟩
        constructor
        · intro hstat
          exfalso
          revert hstat
          split_ifs <;> simp
        · rintro (h | ⟨-, h⟩ | ⟨-, -, h⟩)
          · exact absurd h h1
          · exact absurd h h2
          · exact absurd h h3

/-- C6: with at least two aggregated revisions, the classifier sorts them by
latest timestamp ascending (a permutation of the aggregated list, pairwise
nondecreasing in timestamp), reports the second-to-last as baseline and the
last as current, and the current revision has the maximal latest timestamp
of all aggregated revisions. -/
theorem claim_C6 :
    ∀ (traces : List RecentTraceRecord) (th : OptimizationThresholds),
      2 ≤ (metricsList traces).length →
      (sortedMetrics traces).Perm (metricsList traces) ∧
      (sortedMetrics traces).Pairwise (fun a b => a.latest_ts ≤ b.latest_ts) ∧
      (compute_optimize_delta traces th).baseline_revision =
        some (baselineOf traces).revision ∧
      (compute_optimize_delta traces th).current_revision =
        some (currentOf traces).revision ∧
      (∀ m ∈ metricsList traces, m.latest_ts ≤ (currentOf traces).latest_ts) := by
  intro traces th hlen
  have hperm : (sortedMetrics traces).Perm (metricsList traces) :=
    sortLe_perm tsLe (metricsList traces)
  have hpw : (sortedMetrics traces).Pairwise (fun a b => a.latest_ts ≤ b.latest_ts) := by
    have h := sortLe_pairwise tsLe tsLe_total tsLe_trans (metricsList traces)
    exact h.imp (fun hab => by simpa [tsLe] using hab)
  have hnl : ¬ (metricsList traces).length < 2 := not_lt.mpr hlen
  have hbc : (compute_optimize_delta traces th).baseline_revision =
      some (baselineOf traces).revision ∧
      (compute_optimize_delta traces th).current_revision =
        some (currentOf traces).revision := by
    simp only [compute_optimize_delta, if_neg hnl]
    split_ifs <;> exact ⟨rfl, rfl⟩
  refine ⟨hperm, hpw, hbc.1, hbc.2, ?_⟩
  · intro m hm
    have hm' : m ∈ sortedMetrics traces := hperm.mem_iff.mpr hm
    obtain ⟨i, hi⟩ := List.mem_iff_get.mp hm'
    have hlen' : (sortedMetrics traces).length = (metricsList traces).length :=
      hperm.length_eq
    have hpos : (sortedMetrics traces).length - 1 < (sortedMetrics traces).length := by
      omega
    have hcur : currentOf traces =
        (sortedMetrics traces).get ⟨(sortedMetrics traces).length - 1, hpos⟩ := by
      unfold currentOf
      rw [List.getD_eq_get _ defaultMetrics hpos]
    rcases Nat.lt_trichotomy (i : Nat) ((sortedMetrics traces).length - 1) with h | h | h
    · have := List.pairwise_iff_get.mp hpw i
        ⟨(sortedMetrics traces).length - 1, hpos⟩ h
      rw [hcur, ← hi]
      exact this
    · rw [hcur, ← hi]
      have : i = ⟨(sortedMetrics traces).length - 1, hpos⟩ := Fin.ext h
      rw [this]
    · omega

/-- C2: when all three gates pass, the classifier returns exactly the
reference computation stated by the spec: the absolute completion delta, the
epsilon-guarded relative token and step deltas, and the classification and
reason derived from the three-way signal vote. -/
theorem claim_C2 :
    ∀ (traces : List RecentTraceRecord) (th : OptimizationThresholds),
      ¬ (metricsList traces).length < 2 →
      ¬ ((baselineOf traces).total < th.min_traces ∨
          (currentOf traces).total < th.min_traces) →
      ¬ compute_task_overlap (baselineOf traces).tasks (currentOf traces).tasks <
          th.task_overlap_threshold →
      (compute_optimize_delta traces th).completion_delta =
        (currentOf traces).completion_rate - (baselineOf traces).completion_rate ∧
      (compute_optimize_delta traces th).token_delta_rel =
        specRelativeDelta (baselineOf traces).avg_tokens (currentOf traces).avg_tokens ∧
      (compute_optimize_delta traces th).step_delta_rel =
        specRelativeDelta (baselineOf traces).avg_steps (currentOf traces).avg_steps ∧
      (compute_optimize_delta traces th).status =
        (specClassify (specTotalSignal (baselineOf traces) (currentOf traces) th)).1 ∧
      (compute_optimize_delta traces th).reason =
        (specClassify (specTotalSignal (baselineOf traces) (currentOf traces) th)).2 := by
  intro traces th h1 h2 h3
  have hrd : ∀ b c : ℚ, relative_delta b c = specRelativeDelta b c := by
    intro b c
    unfold relative_delta specRelativeDelta
    by_cases h : |b| < f32Epsilon
    · rw [if_pos h, if_neg (not_le.mpr h)]
    · rw [if_neg h, if_pos (le_of_not_lt h)]
  simp only [compute_optimize_delta, if_neg h1, if_neg h2, if_neg h3, hrd]
  exact ⟨trivial, trivial, trivial, rfl, rfl⟩

/-- Witness for C2 at the concrete improvement run: two revisions, each with
one trace per task, and thresholds whose overlap gate cannot fire. -/
theorem claim_C2_witness :
    (compute_optimize_delta exTracesImp exThresholdsFree).completion_delta =
      (currentOf exTracesImp).completion_rate -
        (baselineOf exTracesImp).completion_rate ∧
    (compute_optimize_delta exTracesImp exThresholdsFree).token_delta_rel =
      specRelativeDelta (baselineOf exTracesImp).avg_tokens
        (currentOf exTracesImp).avg_tokens ∧
    (compute_optimize_delta exTracesImp exThresholdsFree).step_delta_rel =
      specRelativeDelta (baselineOf exTracesImp).avg_steps
        (currentOf exTracesImp).avg_steps ∧
    (compute_optimize_delta exTracesImp exThresholdsFree).status =
      (specClassify (specTotalSignal (baselineOf exTracesImp)
        (currentOf exTracesImp) exThresholdsFree)).1 ∧
    (compute_optimize_delta exTracesImp exThresholdsFree).reason =
      (specClassify (specTotalSignal (baselineOf exTracesImp)
        (currentOf exTracesImp) exThresholdsFree)).2 :=
  claim_C2 exTracesImp exThresholdsFree (by decide) (by decide)
    (not_lt.mpr (compute_task_overlap_nonneg _ _))

/-- Witness for C6 at the concrete pair of revisions whose name order is the
reverse of their recency order. -/
theorem claim_C6_witness :
    (sortedMetrics exTracesRec).Perm (metricsList exTracesRec) ∧
    (sortedMetrics exTracesRec).Pairwise (fun a b => a.latest_ts ≤ b.latest_ts) ∧
    (compute_optimize_delta exTracesRec exThresholds).baseline_revision =
      some (baselineOf exTracesRec).revision ∧
    (compute_optimize_delta exTracesRec exThresholds).current_revision =
      some (currentOf exTracesRec).revision ∧
    (∀ m ∈ metricsList exTracesRec,
      m.latest_ts ≤ (currentOf exTracesRec).latest_ts) :=
  claim_C6 exTracesRec exThresholds (by decide)

end Harness
